import Mathlib

/-!
Verification development for the normalizing-flow stack of `VariTTS`
(`ResidualCouplingBlock.py`): the residual coupling layer, the channel
flip, and the residual coupling block that alternates them.

Modelling conventions:
* Tensors of shape `[B, C, T]` are functions `Fin B → Fin C → Fin T → ℚ`;
  exact rational arithmetic replaces floating point, so "within
  floating-point tolerance" claims are settled as exact equalities.
* The validity mask of shape `[B, 1, T]` drops its singleton channel axis
  and becomes `Fin B → Fin T → ℚ` (it is broadcast over channels).
* `torch.exp` is transcendental, so the embedding is parametric in a
  function `expf : ℚ → ℚ`; theorems that need it assume the law
  `expf a * expf (-a) = 1` (respectively `expf 0 = 1`), which the real
  exponential satisfies.
* The WaveNet network `enc` is an injected black box (it is imported from
  a module outside this repository): any function of the hidden tensor,
  the mask and the optional conditioning.
* 1x1 convolutions (`pre`, `post`) act pointwise in time:
  weight matrix times the channel column plus a bias.
-/

namespace VariTTS

/-- A `[B, C, T]` tensor: batch, channel, time. -/
abbrev Tensor (B C T : ℕ) : Type := Fin B → Fin C → Fin T → ℚ

/-- A `[B, 1, T]` validity mask with the singleton channel axis dropped. -/
abbrev Mask (B T : ℕ) : Type := Fin B → Fin T → ℚ

/-- A `[B, G, 1]` conditioning tensor with the singleton time axis dropped. -/
abbrev Cond (B G : ℕ) : Type := Fin B → Fin G → ℚ

/-- The mask is `{0,1}`-valued (the spec also allows continuous
attenuation values; several claims only hold in the binary case). -/
def BinaryMask {B T : ℕ} (mask : Mask B T) : Prop :=
  ∀ b t, mask b t = 0 ∨ mask b t = 1

/-- Source expression `half_channels * (2 - mean_only)`
(`ResidualCouplingLayer.__init__`, line 136); the Python bool counts as
`1` when true and `0` when false. -/
def postOutChannels (halfChannels : ℕ) (meanOnly : Bool) : ℕ :=
  halfChannels * (2 - cond meanOnly 1 0)

theorem lt_postOutChannels {hc : ℕ} (mo : Bool) (c : Fin hc) :
    c.val < postOutChannels hc mo := by
  cases mo with
  | false =>
    have h := c.isLt
    simp only [postOutChannels, cond_false, Nat.sub_zero]
    omega
  | true =>
    have h := c.isLt
    simp only [postOutChannels, cond_true]
    omega

theorem add_lt_postOutChannels {hc : ℕ} {mo : Bool} (h : ¬ (mo = true))
    (c : Fin hc) : hc + c.val < postOutChannels hc mo := by
  have hmo : mo = false := by cases mo <;> simp_all
  subst hmo
  have hlt := c.isLt
  simp only [postOutChannels, cond_false, Nat.sub_zero]
  omega

/-- First half of `x0, x1 = torch.split(x, [half_channels] * 2, 1)`. -/
def split0 {B hc T : ℕ} (x : Tensor B (hc + hc) T) : Tensor B hc T :=
  fun b c t => x b ⟨c.val, Nat.lt_of_lt_of_le c.isLt (Nat.le_add_right hc hc)⟩ t

/-- Second half of `x0, x1 = torch.split(x, [half_channels] * 2, 1)`. -/
def split1 {B hc T : ℕ} (x : Tensor B (hc + hc) T) : Tensor B hc T :=
  fun b c t => x b ⟨hc + c.val, Nat.add_lt_add_left c.isLt hc⟩ t

/-- Concatenation `torch.cat([x0, x1], 1)` along the channel axis. -/
def cat {B hc T : ℕ} (x0 x1 : Tensor B hc T) : Tensor B (hc + hc) T :=
  fun b c t =>
    if h : c.val < hc then x0 b ⟨c.val, h⟩ t
    else x1 b ⟨c.val - hc, by have := c.isLt; omega⟩ t

theorem split0_cat {B hc T : ℕ} (x0 x1 : Tensor B hc T) :
    split0 (cat x0 x1) = x0 := by
  funext b c t
  simp only [split0, cat, c.isLt, dite_true, Fin.eta]

theorem split1_cat {B hc T : ℕ} (x0 x1 : Tensor B hc T) :
    split1 (cat x0 x1) = x1 := by
  funext b c t
  have hnot : ¬ (hc + c.val < hc) := by omega
  simp only [split1, cat, hnot, dite_false]
  congr 1
  exact Fin.ext (show hc + c.val - hc = c.val by omega)

theorem cat_split {B hc T : ℕ} (x : Tensor B (hc + hc) T) :
    cat (split0 x) (split1 x) = x := by
  funext b c t
  by_cases h : c.val < hc
  · simp only [cat, h, dite_true, split0]
  · simp only [cat, h, dite_false, split1]
    congr 1
    exact Fin.ext (by have := c.isLt; simp only []; omega)

/-- A `ResidualCouplingLayer`: the `mean_only` flag plus the learned 1x1
convolutions `pre` and `post` and the injected WaveNet `enc`
(`__init__`, lines 100-138; `p_dropout`, `kernel_size`, `dilation_rate`,
`n_layers`, `gin_channels` only parameterize the opaque `enc`). -/
structure ResidualCouplingLayer (B hc H T G : ℕ) where
  meanOnly : Bool
  preWeight : Fin H → Fin hc → ℚ
  preBias : Fin H → ℚ
  enc : (Fin B → Fin H → Fin T → ℚ) → Mask B T → Option (Cond B G) →
    (Fin B → Fin H → Fin T → ℚ)
  postWeight : Fin (postOutChannels hc meanOnly) → Fin H → ℚ
  postBias : Fin (postOutChannels hc meanOnly) → ℚ

namespace ResidualCouplingLayer

variable {B hc H T G : ℕ}

/-- Line 150, `h = self.pre(x0) * x_mask`: 1x1 convolution, then mask. -/
def preOut (L : ResidualCouplingLayer B hc H T G) (x0 : Tensor B hc T)
    (mask : Mask B T) : Fin B → Fin H → Fin T → ℚ :=
  fun b hh t => ((∑ c, L.preWeight hh c * x0 b c t) + L.preBias hh) * mask b t

/-- Lines 151-152, `stats = self.post(self.enc(h, x_mask, g)) * x_mask`. -/
def stats (L : ResidualCouplingLayer B hc H T G) (x0 : Tensor B hc T)
    (mask : Mask B T) (g : Option (Cond B G)) :
    Fin B → Fin (postOutChannels hc L.meanOnly) → Fin T → ℚ :=
  fun b c t =>
    ((∑ hh, L.postWeight c hh * L.enc (L.preOut x0 mask) mask g b hh t) +
      L.postBias c) * mask b t

/-- The `m` tensor: the whole of `stats` when `mean_only`, else its first half
(lines 154-157); in both cases entry `c` of `m` is entry `c` of `stats`. -/
def m (L : ResidualCouplingLayer B hc H T G) (x0 : Tensor B hc T)
    (mask : Mask B T) (g : Option (Cond B G)) : Tensor B hc T :=
  fun b c t => L.stats x0 mask g b ⟨c.val, lt_postOutChannels L.meanOnly c⟩ t

/-- The `logs` tensor: zero when `mean_only` (line 158), else the second half of
`stats` (line 155). -/
def logs (L : ResidualCouplingLayer B hc H T G) (x0 : Tensor B hc T)
    (mask : Mask B T) (g : Option (Cond B G)) : Tensor B hc T :=
  fun b c t =>
    if h : L.meanOnly then 0
    else L.stats x0 mask g b ⟨hc + c.val, add_lt_postOutChannels h c⟩ t

/-- The `reverse=False` branch of `ResidualCouplingLayer.forward`
(lines 149-164): `x1 = m + x1 * exp(logs) * x_mask`, concatenate, and
`logdet = torch.sum(logs, [1, 2])`. -/
def fwd (expf : ℚ → ℚ) (L : ResidualCouplingLayer B hc H T G)
    (x : Tensor B (hc + hc) T) (mask : Mask B T) (g : Option (Cond B G)) :
    Tensor B (hc + hc) T × (Fin B → ℚ) :=
  (cat (split0 x)
    (fun b c t =>
      L.m (split0 x) mask g b c t +
        split1 x b c t * expf (L.logs (split0 x) mask g b c t) * mask b t),
   fun b => ∑ c, ∑ t, L.logs (split0 x) mask g b c t)

/-- The `reverse=True` branch of `ResidualCouplingLayer.forward`
(lines 149-158 and 165-168): `x1 = (x1 - m) * exp(-logs) * x_mask`. -/
def rev (expf : ℚ → ℚ) (L : ResidualCouplingLayer B hc H T G)
    (x : Tensor B (hc + hc) T) (mask : Mask B T) (g : Option (Cond B G)) :
    Tensor B (hc + hc) T :=
  cat (split0 x)
    (fun b c t =>
      (split1 x b c t - L.m (split0 x) mask g b c t) *
        expf (-(L.logs (split0 x) mask g b c t)) * mask b t)

end ResidualCouplingLayer

/-- Line 90, `torch.flip(x, [1])`: reverse the channel axis. -/
def flipChannels {B C T : ℕ} (x : Tensor B C T) : Tensor B C T :=
  fun b c t => x b c.rev t

namespace Flip

/-- The `reverse=False` branch of `Flip.forward` (lines 90-94):
flip, and a zero log-determinant vector of shape `[B]`. -/
def fwd {B C T : ℕ} (x : Tensor B C T) : Tensor B C T × (Fin B → ℚ) :=
  (flipChannels x, fun _ => 0)

/-- The `reverse=True` branch of `Flip.forward` (lines 90, 95-96). -/
def rev {B C T : ℕ} (x : Tensor B C T) : Tensor B C T :=
  flipChannels x

end Flip

/-- One stage of the block's `self.flows` list: a coupling layer or a flip. -/
inductive Stage (B hc H T G : ℕ) where
  | coupling (L : ResidualCouplingLayer B hc H T G)
  | flip

namespace Stage

variable {B hc H T G : ℕ}

/-- A stage applied with `reverse=False` (returns `(x, logdet)`). -/
def fwd (expf : ℚ → ℚ) (s : Stage B hc H T G) (x : Tensor B (hc + hc) T)
    (mask : Mask B T) (g : Option (Cond B G)) :
    Tensor B (hc + hc) T × (Fin B → ℚ) :=
  match s with
  | .coupling L => L.fwd expf x mask g
  | .flip => Flip.fwd x

/-- A stage applied with `reverse=True` (returns the tensor only). -/
def rev (expf : ℚ → ℚ) (s : Stage B hc H T G) (x : Tensor B (hc + hc) T)
    (mask : Mask B T) (g : Option (Cond B G)) : Tensor B (hc + hc) T :=
  match s with
  | .coupling L => L.rev expf x mask g
  | .flip => Flip.rev x

end Stage

/-- The learned parameters of one coupling layer of the block; the block
always constructs its layers with `mean_only=True` (line 64). -/
structure CouplingParams (B hc H T G : ℕ) where
  preWeight : Fin H → Fin hc → ℚ
  preBias : Fin H → ℚ
  enc : (Fin B → Fin H → Fin T → ℚ) → Mask B T → Option (Cond B G) →
    (Fin B → Fin H → Fin T → ℚ)
  postWeight : Fin (postOutChannels hc true) → Fin H → ℚ
  postBias : Fin (postOutChannels hc true) → ℚ

/-- A coupling layer built with `mean_only=True`, as the block does. -/
def mkMeanOnlyLayer {B hc H T G : ℕ} (p : CouplingParams B hc H T G) :
    ResidualCouplingLayer B hc H T G :=
  ⟨true, p.preWeight, p.preBias, p.enc, p.postWeight, p.postBias⟩

namespace ResidualCouplingBlock

variable {B hc H T G : ℕ}

/-- The `self.flows` list: for each `i < n_flows`, append a `mean_only=True`
coupling layer and then a `Flip` (`__init__`, lines 54-67). -/
def flows (nFlows : ℕ) (params : Fin nFlows → CouplingParams B hc H T G) :
    List (Stage B hc H T G) :=
  (List.ofFn fun i => [Stage.coupling (mkMeanOnlyLayer (params i)), Stage.flip]).flatten

/-- The `reverse=False` branch of `ResidualCouplingBlock.forward`
(lines 78-80): stages in construction order, log-determinants discarded. -/
def fwd (expf : ℚ → ℚ) (fl : List (Stage B hc H T G))
    (x : Tensor B (hc + hc) T) (mask : Mask B T) (g : Option (Cond B G)) :
    Tensor B (hc + hc) T :=
  fl.foldl (fun a s => (s.fwd expf a mask g).1) x

/-- The `reverse=True` branch of `ResidualCouplingBlock.forward`
(lines 81-83): `for flow in reversed(self.flows)`. -/
def rev (expf : ℚ → ℚ) (fl : List (Stage B hc H T G))
    (x : Tensor B (hc + hc) T) (mask : Mask B T) (g : Option (Cond B G)) :
    Tensor B (hc + hc) T :=
  fl.reverse.foldl (fun a s => s.rev expf a mask g) x

end ResidualCouplingBlock

/-- Pointwise equality of tensors at all valid (mask = 1) positions. -/
def EqOnValid {B C T : ℕ} (mask : Mask B T) (x y : Tensor B C T) : Prop :=
  ∀ b c t, mask b t = 1 → x b c t = y b c t

namespace ResidualCouplingLayer

variable {B hc H T G : ℕ}

theorem preOut_congr (L : ResidualCouplingLayer B hc H T G) {mask : Mask B T}
    (hbin : BinaryMask mask) {x0 y0 : Tensor B hc T}
    (h : EqOnValid mask x0 y0) : L.preOut x0 mask = L.preOut y0 mask := by
  funext b hh t
  rcases hbin b t with h0 | h1
  · simp [preOut, h0]
  · simp only [preOut, h1, mul_one]
    congr 1
    exact Finset.sum_congr rfl fun c _ => by rw [h b c t h1]

theorem stats_congr (L : ResidualCouplingLayer B hc H T G) {mask : Mask B T}
    (hbin : BinaryMask mask) {x0 y0 : Tensor B hc T} (g : Option (Cond B G))
    (h : EqOnValid mask x0 y0) : L.stats x0 mask g = L.stats y0 mask g := by
  unfold stats
  rw [L.preOut_congr hbin h]

theorem m_congr (L : ResidualCouplingLayer B hc H T G) {mask : Mask B T}
    (hbin : BinaryMask mask) {x0 y0 : Tensor B hc T} (g : Option (Cond B G))
    (h : EqOnValid mask x0 y0) : L.m x0 mask g = L.m y0 mask g := by
  unfold m
  rw [L.stats_congr hbin g h]

theorem logs_congr (L : ResidualCouplingLayer B hc H T G) {mask : Mask B T}
    (hbin : BinaryMask mask) {x0 y0 : Tensor B hc T} (g : Option (Cond B G))
    (h : EqOnValid mask x0 y0) : L.logs x0 mask g = L.logs y0 mask g := by
  unfold logs
  rw [L.stats_congr hbin g h]

theorem split0_eqOnValid {mask : Mask B T} {x y : Tensor B (hc + hc) T}
    (h : EqOnValid mask x y) : EqOnValid mask (split0 x) (split0 y) :=
  fun b c t h1 =>
    h b ⟨c.val, Nat.lt_of_lt_of_le c.isLt (Nat.le_add_right hc hc)⟩ t h1

theorem layerFwd_eqOnValid (expf : ℚ → ℚ) (L : ResidualCouplingLayer B hc H T G)
    {mask : Mask B T} (hbin : BinaryMask mask) (g : Option (Cond B G))
    {x y : Tensor B (hc + hc) T} (hxy : EqOnValid mask x y) :
    EqOnValid mask (L.fwd expf x mask g).1 (L.fwd expf y mask g).1 := by
  have hm := L.m_congr hbin g (split0_eqOnValid hxy)
  have hl := L.logs_congr hbin g (split0_eqOnValid hxy)
  intro b c t h1
  by_cases hlt : c.val < hc
  · simp only [fwd, cat, hlt, dite_true, split0]
    exact hxy b _ t h1
  · simp only [fwd, cat, hlt, dite_false, split1, hm, hl]
    rw [hxy b _ t h1]

theorem layerRev_eqOnValid (expf : ℚ → ℚ) (L : ResidualCouplingLayer B hc H T G)
    {mask : Mask B T} (hbin : BinaryMask mask) (g : Option (Cond B G))
    {x y : Tensor B (hc + hc) T} (hxy : EqOnValid mask x y) :
    EqOnValid mask (L.rev expf x mask g) (L.rev expf y mask g) := by
  have hm := L.m_congr hbin g (split0_eqOnValid hxy)
  have hl := L.logs_congr hbin g (split0_eqOnValid hxy)
  intro b c t h1
  by_cases hlt : c.val < hc
  · simp only [rev, cat, hlt, dite_true, split0]
    exact hxy b _ t h1
  · simp only [rev, cat, hlt, dite_false, split1, hm, hl]
    rw [hxy b _ t h1]

theorem affine_cancel (M S E E2 K : ℚ) (h : E * E2 = 1) :
    (M + S * E * K - M) * E2 * K = S * (K * K) := by
  calc (M + S * E * K - M) * E2 * K = S * (E * E2) * (K * K) := by ring
    _ = S * (K * K) := by rw [h, mul_one]

/-- One coupling layer followed by its own inverse multiplies the
transformed half by `mask^2` and leaves the pass-through half intact. -/
theorem rev_fwd (expf : ℚ → ℚ) (L : ResidualCouplingLayer B hc H T G)
    (x : Tensor B (hc + hc) T) (mask : Mask B T) (g : Option (Cond B G))
    (hexp : ∀ a, expf a * expf (-a) = 1) :
    L.rev expf (L.fwd expf x mask g).1 mask g =
      cat (split0 x)
        (fun b c t => split1 x b c t * (mask b t * mask b t)) := by
  have h0 : split0 (L.fwd expf x mask g).1 = split0 x := by
    simp only [fwd]
    exact split0_cat _ _
  have h1 : split1 (L.fwd expf x mask g).1 =
      (fun b c t =>
        L.m (split0 x) mask g b c t +
          split1 x b c t * expf (L.logs (split0 x) mask g b c t) * mask b t) := by
    simp only [fwd]
    exact split1_cat _ _
  funext b c t
  by_cases hlt : c.val < hc
  · simp only [rev, cat, hlt, dite_true]
    rw [h0]
  · simp only [rev, cat, hlt, dite_false]
    rw [h0, h1]
    exact affine_cancel _ _ _ _ _ (hexp _)

theorem layerRevFwd_eqOnValid (expf : ℚ → ℚ) (L : ResidualCouplingLayer B hc H T G)
    (x : Tensor B (hc + hc) T) (mask : Mask B T) (g : Option (Cond B G))
    (hexp : ∀ a, expf a * expf (-a) = 1) :
    EqOnValid mask (L.rev expf (L.fwd expf x mask g).1 mask g) x := by
  intro b c t h1
  rw [L.rev_fwd expf x mask g hexp]
  by_cases hlt : c.val < hc
  · simp only [cat, hlt, dite_true, split0, Fin.eta]
  · simp only [cat, hlt, dite_false, split1, h1, mul_one]
    congr 1
    exact Fin.ext (show hc + (c.val - hc) = c.val by have := c.isLt; omega)

end ResidualCouplingLayer

theorem flipChannels_flipChannels {B C T : ℕ} (x : Tensor B C T) :
    flipChannels (flipChannels x) = x := by
  funext b c t
  simp [flipChannels, Fin.rev_rev]

theorem flipChannels_eqOnValid {B C T : ℕ} {mask : Mask B T}
    {x y : Tensor B C T} (h : EqOnValid mask x y) :
    EqOnValid mask (flipChannels x) (flipChannels y) :=
  fun b c t h1 => h b c.rev t h1

namespace Stage

variable {B hc H T G : ℕ}

theorem stageFwd_eqOnValid (expf : ℚ → ℚ) (s : Stage B hc H T G) {mask : Mask B T}
    (hbin : BinaryMask mask) (g : Option (Cond B G))
    {x y : Tensor B (hc + hc) T} (hxy : EqOnValid mask x y) :
    EqOnValid mask (s.fwd expf x mask g).1 (s.fwd expf y mask g).1 := by
  cases s with
  | coupling L => exact L.layerFwd_eqOnValid expf hbin g hxy
  | flip => exact flipChannels_eqOnValid hxy

theorem stageRev_eqOnValid (expf : ℚ → ℚ) (s : Stage B hc H T G) {mask : Mask B T}
    (hbin : BinaryMask mask) (g : Option (Cond B G))
    {x y : Tensor B (hc + hc) T} (hxy : EqOnValid mask x y) :
    EqOnValid mask (s.rev expf x mask g) (s.rev expf y mask g) := by
  cases s with
  | coupling L => exact L.layerRev_eqOnValid expf hbin g hxy
  | flip => exact flipChannels_eqOnValid hxy

theorem stageRevFwd_eqOnValid (expf : ℚ → ℚ) (s : Stage B hc H T G)
    (x : Tensor B (hc + hc) T) (mask : Mask B T) (g : Option (Cond B G))
    (hexp : ∀ a, expf a * expf (-a) = 1) :
    EqOnValid mask (s.rev expf (s.fwd expf x mask g).1 mask g) x := by
  cases s with
  | coupling L => exact L.layerRevFwd_eqOnValid expf x mask g hexp
  | flip =>
    intro b c t h1
    show flipChannels (flipChannels x) b c t = x b c t
    rw [flipChannels_flipChannels]

end Stage

namespace ResidualCouplingBlock

variable {B hc H T G : ℕ}

theorem fwd_cons (expf : ℚ → ℚ) (s : Stage B hc H T G)
    (fl : List (Stage B hc H T G)) (x : Tensor B (hc + hc) T)
    (mask : Mask B T) (g : Option (Cond B G)) :
    fwd expf (s :: fl) x mask g = fwd expf fl (s.fwd expf x mask g).1 mask g :=
  rfl

theorem rev_cons (expf : ℚ → ℚ) (s : Stage B hc H T G)
    (fl : List (Stage B hc H T G)) (x : Tensor B (hc + hc) T)
    (mask : Mask B T) (g : Option (Cond B G)) :
    rev expf (s :: fl) x mask g = s.rev expf (rev expf fl x mask g) mask g := by
  unfold rev
  rw [List.reverse_cons, List.foldl_append]
  rfl

/-- Reverse-then-forward through any list of stages restores the input at
every valid (mask = 1) position. -/
theorem blockRevFwd_eqOnValid (expf : ℚ → ℚ) (fl : List (Stage B hc H T G))
    (x : Tensor B (hc + hc) T) (mask : Mask B T) (g : Option (Cond B G))
    (hbin : BinaryMask mask) (hexp : ∀ a, expf a * expf (-a) = 1) :
    EqOnValid mask (rev expf fl (fwd expf fl x mask g) mask g) x := by
  induction fl generalizing x with
  | nil => intro b c t h1; rfl
  | cons s rest ih =>
    rw [fwd_cons, rev_cons]
    intro b c t h1
    have h2 := s.stageRev_eqOnValid expf hbin g (ih (s.fwd expf x mask g).1)
    have h3 := s.stageRevFwd_eqOnValid expf x mask g hexp
    exact (h2 b c t h1).trans (h3 b c t h1)

end ResidualCouplingBlock

section DefaultsForWitnesses

/-- A computable stand-in for `torch.exp` used in concrete evaluations:
it satisfies `expf a * expf (-a) = 1` and `expf 0 = 1`, the only facts
about the exponential that the theorems consume, and it agrees with the
real exponential at `0`, the only point where the `mean_only=True`
block ever evaluates it. -/
def exExp : ℚ → ℚ := fun _ => 1

/-- Concrete parameters for a block with `B = hc = H = T = 1`, `G = 0`:
`pre` is the identity weight with zero bias, `enc` is the identity
network, `post` has weight one and bias zero. -/
def exParams : Fin 1 → CouplingParams 1 1 1 1 0 := fun _ =>
  ⟨fun _ _ => 1, fun _ => 0, fun h _ _ => h, fun _ _ => 1, fun _ => 0⟩

/-- An all-ones validity mask. -/
def exMaskOnes : Mask 1 1 := fun _ _ => 1

/-- An all-zeros validity mask (a fully padded time axis). -/
def exMaskZero : Mask 1 1 := fun _ _ => 0

/-- A concrete `[1, 2, 1]` input tensor with entries `2` and `3`. -/
def exX : Tensor 1 (1 + 1) 1 := fun _ c _ => (c.val : ℚ) + 2

end DefaultsForWitnesses

/-- C1 (amended): for every constructed `ResidualCouplingBlock` (any
number of flows, arbitrary learned parameters, any injected `enc`
networks), any input, any `{0,1}`-valued mask and any conditioning,
applying `forward` with `reverse=False` and then with `reverse=True`
restores the input exactly at every time step where the mask is `1`; in
particular, with an all-ones mask the round trip returns exactly `x`.
(The claim as frozen — the round trip returns `x` for every valid mask —
fails at masked-out positions; see the counterexample.) -/
theorem block_roundtrip_restores_valid_positions {B hc H T G : ℕ}
    (expf : ℚ → ℚ) (nFlows : ℕ)
    (params : Fin nFlows → CouplingParams B hc H T G)
    (x : Tensor B (hc + hc) T) (mask : Mask B T) (g : Option (Cond B G))
    (hbin : BinaryMask mask) (hexp : ∀ a, expf a * expf (-a) = 1) :
    (∀ b c t, mask b t = 1 →
      ResidualCouplingBlock.rev expf (ResidualCouplingBlock.flows nFlows params)
        (ResidualCouplingBlock.fwd expf
          (ResidualCouplingBlock.flows nFlows params) x mask g)
        mask g b c t = x b c t) ∧
    ((∀ b t, mask b t = 1) →
      ResidualCouplingBlock.rev expf (ResidualCouplingBlock.flows nFlows params)
        (ResidualCouplingBlock.fwd expf
          (ResidualCouplingBlock.flows nFlows params) x mask g)
        mask g = x) := by
  have h := ResidualCouplingBlock.blockRevFwd_eqOnValid expf
    (ResidualCouplingBlock.flows nFlows params) x mask g hbin hexp
  exact ⟨h, fun hall => funext fun b => funext fun c => funext fun t =>
    h b c t (hall b t)⟩

/-- Witness for C1: a concrete one-flow block with identity `enc`, the
all-ones mask, and a concrete input; the round trip returns the input
exactly. -/
theorem block_roundtrip_restores_valid_positions_witness :
    BinaryMask exMaskOnes ∧
    ResidualCouplingBlock.rev exExp (ResidualCouplingBlock.flows 1 exParams)
      (ResidualCouplingBlock.fwd exExp (ResidualCouplingBlock.flows 1 exParams)
        exX exMaskOnes none)
      exMaskOnes none = exX :=
  ⟨fun _ _ => Or.inr rfl,
   (block_roundtrip_restores_valid_positions exExp 1 exParams exX exMaskOnes
      none (fun _ _ => Or.inr rfl) (fun a => by simp [exExp])).2
     (fun _ _ => rfl)⟩

/-- Counterexample to C1 as frozen: with a mask that is `0` at the only
time step and the input `exX` (whose channel-1 entry is `3`), the
forward-then-reverse round trip of a constructed block returns `0` at
that entry, not the original value — far outside any `1e-5` tolerance.
Only `expf 0` is evaluated here (all `logs` are zero for the
`mean_only=True` block), and `exExp 0 = 1 = exp 0`. -/
theorem block_roundtrip_cex :
    ResidualCouplingBlock.rev exExp (ResidualCouplingBlock.flows 1 exParams)
      (ResidualCouplingBlock.fwd exExp (ResidualCouplingBlock.flows 1 exParams)
        exX exMaskZero none)
      exMaskZero none 0 ⟨1, by omega⟩ 0 = 0 ∧
    exX 0 ⟨1, by omega⟩ 0 = 3 := by
  have hflows : ResidualCouplingBlock.flows 1 exParams =
      [Stage.coupling (mkMeanOnlyLayer (exParams 0)), Stage.flip] := by
    simp [ResidualCouplingBlock.flows, List.ofFn_succ]
  constructor
  · rw [hflows]
    norm_num [ResidualCouplingBlock.rev, ResidualCouplingBlock.fwd,
      Stage.fwd, Stage.rev, Flip.fwd, Flip.rev, flipChannels,
      ResidualCouplingLayer.fwd, ResidualCouplingLayer.rev,
      ResidualCouplingLayer.m, ResidualCouplingLayer.logs,
      ResidualCouplingLayer.stats, ResidualCouplingLayer.preOut,
      mkMeanOnlyLayer, exParams, exExp, exMaskZero, exX,
      cat, split0, split1, Fin.rev]
  · norm_num [exX]

/-- C7: `Flip.forward` flips the channel axis identically in both
directions, returns `(flipped_x, logdet)` with `logdet` the zero vector
of shape `[B]` when `reverse=False` and the flipped tensor alone when
`reverse=True`, and forward-then-reverse is the identity. -/
theorem flip_self_inverse {B C T : ℕ} (x : Tensor B C T) :
    Flip.fwd x = (flipChannels x, fun _ => 0) ∧
    Flip.rev x = flipChannels x ∧
    (Flip.fwd x).1 = Flip.rev x ∧
    Flip.rev (Flip.fwd x).1 = x :=
  ⟨rfl, rfl, rfl, flipChannels_flipChannels x⟩

/-- C5: in both directions the first `half_channels` output channels of
`ResidualCouplingLayer.forward` equal the corresponding input channels
exactly — `x0` is pure pass-through. -/
theorem coupling_passthrough {B hc H T G : ℕ} (expf : ℚ → ℚ)
    (L : ResidualCouplingLayer B hc H T G) (x : Tensor B (hc + hc) T)
    (mask : Mask B T) (g : Option (Cond B G)) (b : Fin B)
    (c : Fin (hc + hc)) (t : Fin T) (hlt : c.val < hc) :
    (L.fwd expf x mask g).1 b c t = x b c t ∧
    L.rev expf x mask g b c t = x b c t := by
  constructor
  · simp only [ResidualCouplingLayer.fwd, cat, hlt, dite_true, split0, Fin.eta]
  · simp only [ResidualCouplingLayer.rev, cat, hlt, dite_true, split0, Fin.eta]

/-- Witness for C5 at a concrete layer, input and channel index 0. -/
theorem coupling_passthrough_witness :
    (0 : Fin (1 + 1)).val < 1 ∧
    (((mkMeanOnlyLayer (exParams 0)).fwd exExp exX exMaskOnes none).1 0 0 0 =
        exX 0 0 0 ∧
      (mkMeanOnlyLayer (exParams 0)).rev exExp exX exMaskOnes none 0 0 0 =
        exX 0 0 0) :=
  ⟨by decide,
   coupling_passthrough exExp (mkMeanOnlyLayer (exParams 0)) exX exMaskOnes
     none 0 0 0 (by decide)⟩

/-- C9: one application of the flow stack (either direction) is a pure
function of the input tensor, the mask, the conditioning, and the
parameters (the stage list, including each layer's injected `enc`):
identical inputs yield identical outputs. -/
theorem flow_stack_deterministic {B hc H T G : ℕ} (expf : ℚ → ℚ)
    (fl : List (Stage B hc H T G)) {x x' : Tensor B (hc + hc) T}
    {mask mask' : Mask B T} {g g' : Option (Cond B G)}
    (hx : x = x') (hm : mask = mask') (hg : g = g') :
    ResidualCouplingBlock.fwd expf fl x mask g =
      ResidualCouplingBlock.fwd expf fl x' mask' g' ∧
    ResidualCouplingBlock.rev expf fl x mask g =
      ResidualCouplingBlock.rev expf fl x' mask' g' := by
  subst hx
  subst hm
  subst hg
  exact ⟨rfl, rfl⟩

/-- Witness for C9 at a concrete block and input. -/
theorem flow_stack_deterministic_witness :
    ResidualCouplingBlock.fwd exExp (ResidualCouplingBlock.flows 1 exParams)
        exX exMaskOnes none =
      ResidualCouplingBlock.fwd exExp (ResidualCouplingBlock.flows 1 exParams)
        exX exMaskOnes none ∧
    ResidualCouplingBlock.rev exExp (ResidualCouplingBlock.flows 1 exParams)
        exX exMaskOnes none =
      ResidualCouplingBlock.rev exExp (ResidualCouplingBlock.flows 1 exParams)
        exX exMaskOnes none :=
  flow_stack_deterministic exExp (ResidualCouplingBlock.flows 1 exParams)
    rfl rfl rfl

theorem flows_get_facts {B hc H T G : ℕ} :
    ∀ (n : ℕ) (params : Fin n → CouplingParams B hc H T G),
      (ResidualCouplingBlock.flows n params).length = 2 * n ∧
      ∀ i : Fin n,
        (ResidualCouplingBlock.flows n params).get? (2 * i.val) =
          some (Stage.coupling (mkMeanOnlyLayer (params i))) ∧
        (ResidualCouplingBlock.flows n params).get? (2 * i.val + 1) =
          some Stage.flip := by
  intro n
  induction n with
  | zero =>
    intro params
    exact ⟨by simp [ResidualCouplingBlock.flows], fun i => i.elim0⟩
  | succ k ih =>
    intro params
    have hstep : ResidualCouplingBlock.flows (k + 1) params =
        Stage.coupling (mkMeanOnlyLayer (params 0)) :: Stage.flip ::
          ResidualCouplingBlock.flows k (fun j => params j.succ) := by
      unfold ResidualCouplingBlock.flows
      rw [List.ofFn_succ]
      rfl
    constructor
    · rw [hstep]
      simp only [List.length_cons, (ih (fun j => params j.succ)).1]
      omega
    · intro i
      rcases Fin.eq_zero_or_eq_succ i with h0 | ⟨j, hj⟩
      · subst h0
        rw [hstep]
        exact ⟨rfl, rfl⟩
      · subst hj
        have hseq := (ih (fun r => params r.succ)).2 j
        constructor
        · have h2 : 2 * (Fin.succ j).val = 2 * j.val + 1 + 1 := by
            rw [Fin.val_succ]
            ring
          rw [hstep, h2, List.get?_cons_succ, List.get?_cons_succ]
          exact hseq.1
        · have h2 : 2 * (Fin.succ j).val + 1 = 2 * j.val + 1 + 1 + 1 := by
            rw [Fin.val_succ]
            ring
          rw [hstep, h2, List.get?_cons_succ, List.get?_cons_succ]
          exact hseq.2

/-- C4: the constructed `self.flows` has `2 * n_flows` stages alternating
coupling layers (each built with `mean_only=True` from its own
parameters) and flips, in construction order; `forward` with
`reverse=False` consumes the stages head-first (construction order),
while `reverse=True` applies the stages' reverse operations in exact
reverse construction order (peeling the head stage last) and — by its
very return type — produces no log-determinant. -/
theorem block_structure_and_traversal {B hc H T G : ℕ} (expf : ℚ → ℚ)
    (nFlows : ℕ) (params : Fin nFlows → CouplingParams B hc H T G)
    (mask : Mask B T) (g : Option (Cond B G)) :
    (ResidualCouplingBlock.flows nFlows params).length = 2 * nFlows ∧
    (∀ i : Fin nFlows,
      (ResidualCouplingBlock.flows nFlows params).get? (2 * i.val) =
        some (Stage.coupling (mkMeanOnlyLayer (params i))) ∧
      (mkMeanOnlyLayer (params i)).meanOnly = true ∧
      (ResidualCouplingBlock.flows nFlows params).get? (2 * i.val + 1) =
        some Stage.flip) ∧
    (∀ (s : Stage B hc H T G) (fl : List (Stage B hc H T G))
        (x : Tensor B (hc + hc) T),
      ResidualCouplingBlock.fwd expf (s :: fl) x mask g =
        ResidualCouplingBlock.fwd expf fl (s.fwd expf x mask g).1 mask g) ∧
    (∀ (s : Stage B hc H T G) (fl : List (Stage B hc H T G))
        (x : Tensor B (hc + hc) T),
      ResidualCouplingBlock.rev expf (s :: fl) x mask g =
        s.rev expf (ResidualCouplingBlock.rev expf fl x mask g) mask g) := by
  refine ⟨(flows_get_facts nFlows params).1,
    fun i => ⟨((flows_get_facts nFlows params).2 i).1, rfl,
      ((flows_get_facts nFlows params).2 i).2⟩,
    fun s fl x => ResidualCouplingBlock.fwd_cons expf s fl x mask g,
    fun s fl x => ResidualCouplingBlock.rev_cons expf s fl x mask g⟩

namespace ResidualCouplingLayer

variable {B hc H T G : ℕ}

theorem stats_mask_zero (L : ResidualCouplingLayer B hc H T G)
    {x0 : Tensor B hc T} {mask : Mask B T} {g : Option (Cond B G)}
    {b : Fin B} {t : Fin T} (h : mask b t = 0)
    (c : Fin (postOutChannels hc L.meanOnly)) :
    L.stats x0 mask g b c t = 0 := by
  simp [stats, h]

theorem m_mask_zero (L : ResidualCouplingLayer B hc H T G)
    {x0 : Tensor B hc T} {mask : Mask B T} {g : Option (Cond B G)}
    {b : Fin B} {t : Fin T} (h : mask b t = 0) (c : Fin hc) :
    L.m x0 mask g b c t = 0 :=
  L.stats_mask_zero h _

theorem logs_mask_zero (L : ResidualCouplingLayer B hc H T G)
    {x0 : Tensor B hc T} {mask : Mask B T} {g : Option (Cond B G)}
    {b : Fin B} {t : Fin T} (h : mask b t = 0) (c : Fin hc) :
    L.logs x0 mask g b c t = 0 := by
  by_cases hm : L.meanOnly
  · simp [logs, hm]
  · simp [logs, hm]
    exact L.stats_mask_zero h _

theorem m_mul_mask_self (L : ResidualCouplingLayer B hc H T G)
    {x0 : Tensor B hc T} {mask : Mask B T} {g : Option (Cond B G)}
    (hbin : BinaryMask mask) (b : Fin B) (c : Fin hc) (t : Fin T) :
    L.m x0 mask g b c t * mask b t = L.m x0 mask g b c t := by
  rcases hbin b t with h | h
  · rw [h, mul_zero]
    exact (L.m_mask_zero h c).symm
  · rw [h, mul_one]

end ResidualCouplingLayer

/-- Modelled from the spec's wording of the coupling forward
postcondition, for refinement comparison with the code:
`x1' = (m + x1 * exp(logs)) * mask`, output `concat(x0, x1')`,
`logdet = sum(logs over channel and time axes)` per batch element. -/
def couplingForwardSpec {B hc H T G : ℕ} (expf : ℚ → ℚ)
    (L : ResidualCouplingLayer B hc H T G) (x : Tensor B (hc + hc) T)
    (mask : Mask B T) (g : Option (Cond B G)) :
    Tensor B (hc + hc) T × (Fin B → ℚ) :=
  (cat (split0 x)
    (fun b c t =>
      (L.m (split0 x) mask g b c t +
        split1 x b c t * expf (L.logs (split0 x) mask g b c t)) * mask b t),
   fun b => ∑ c, ∑ t, L.logs (split0 x) mask g b c t)

/-- C2 (amended): for a `{0,1}`-valued mask the coupling forward output
agrees with the spec's formula `x1' = (m + x1 * exp(logs)) * mask` (in
general the code computes `x1' = m + x1 * exp(logs) * mask`, which
differs for attenuation masks — see the counterexample); the returned
`logdet` is the exact sum of `logs` over the channel and time axes, per
batch element, for every mask. -/
theorem coupling_forward_postcondition {B hc H T G : ℕ} (expf : ℚ → ℚ)
    (L : ResidualCouplingLayer B hc H T G) (x : Tensor B (hc + hc) T)
    (mask : Mask B T) (g : Option (Cond B G)) (hbin : BinaryMask mask) :
    (L.fwd expf x mask g).1 = (couplingForwardSpec expf L x mask g).1 ∧
    (L.fwd expf x mask g).2 =
      (fun b => ∑ c : Fin hc, ∑ t : Fin T, L.logs (split0 x) mask g b c t) := by
  constructor
  · funext b c t
    by_cases hlt : c.val < hc
    · simp only [ResidualCouplingLayer.fwd, couplingForwardSpec, cat, hlt,
        dite_true]
    · simp only [ResidualCouplingLayer.fwd, couplingForwardSpec, cat, hlt,
        dite_false]
      rw [add_mul, L.m_mul_mask_self hbin]
  · rfl

/-- Witness for C2 at a concrete layer, input and binary mask. -/
theorem coupling_forward_postcondition_witness :
    ((mkMeanOnlyLayer (exParams 0)).fwd exExp exX exMaskOnes none).1 =
      (couplingForwardSpec exExp (mkMeanOnlyLayer (exParams 0)) exX
        exMaskOnes none).1 ∧
    ((mkMeanOnlyLayer (exParams 0)).fwd exExp exX exMaskOnes none).2 =
      (fun b => ∑ c : Fin 1, ∑ t : Fin 1,
        (mkMeanOnlyLayer (exParams 0)).logs (split0 exX) exMaskOnes none b c t) :=
  coupling_forward_postcondition exExp (mkMeanOnlyLayer (exParams 0)) exX
    exMaskOnes none (fun _ _ => Or.inr rfl)

/-- An attenuation-valued mask (allowed by the spec's data model), on
which the claimed formula diverges from the code. -/
def exMaskHalf : Mask 1 1 := fun _ _ => 1 / 2

/-- Counterexample to C2 as frozen: with the attenuation mask `1/2`,
the code's transformed entry is `2` while the claimed formula
`(m + x1 * exp(logs)) * mask` gives `7/4`. -/
theorem coupling_forward_postcondition_cex :
    ((mkMeanOnlyLayer (exParams 0)).fwd exExp exX exMaskHalf none).1
        0 ⟨1, by omega⟩ 0 = 2 ∧
    (couplingForwardSpec exExp (mkMeanOnlyLayer (exParams 0)) exX
        exMaskHalf none).1 0 ⟨1, by omega⟩ 0 = 7 / 4 := by
  have hpw : ∀ c hh, (mkMeanOnlyLayer (exParams 0)).postWeight c hh = 1 :=
    fun _ _ => rfl
  have hpb : ∀ c, (mkMeanOnlyLayer (exParams 0)).postBias c = 0 :=
    fun _ => rfl
  constructor
  · norm_num [ResidualCouplingLayer.fwd, ResidualCouplingLayer.m,
      ResidualCouplingLayer.logs, ResidualCouplingLayer.stats,
      ResidualCouplingLayer.preOut, mkMeanOnlyLayer, exParams, exExp,
      exMaskHalf, exX, cat, split0, split1, hpw, hpb]
  · norm_num [couplingForwardSpec, ResidualCouplingLayer.m,
      ResidualCouplingLayer.logs, ResidualCouplingLayer.stats,
      ResidualCouplingLayer.preOut, mkMeanOnlyLayer, exParams, exExp,
      exMaskHalf, exX, cat, split0, split1, hpw, hpb]

/-- The construction of `ResidualCouplingLayer.__init__` lines 122-138:
`pre` and `enc` carry whatever initialization they get, while the
`post` convolution's weight and bias are zero-initialized (lines
137-138), so that the layer starts as the identity transform. -/
def mkZeroPostLayer {B hc H T G : ℕ} (meanOnly : Bool)
    (preWeight : Fin H → Fin hc → ℚ) (preBias : Fin H → ℚ)
    (enc : (Fin B → Fin H → Fin T → ℚ) → Mask B T → Option (Cond B G) →
      (Fin B → Fin H → Fin T → ℚ)) : ResidualCouplingLayer B hc H T G :=
  ⟨meanOnly, preWeight, preBias, enc, fun _ _ => 0, fun _ => 0⟩

/-- C3 (amended): a freshly constructed `mean_only=True` coupling layer
has `post` weight and bias exactly zero, hence `m = 0` and `logs = 0`
everywhere, and forward with `reverse=False` returns an output whose
pass-through half is `x0` and whose transformed half is `x1 * mask`,
with a logdet of exactly zero per batch element; with an all-ones mask
this is exactly `(x, zeros[B])`. (The claim as frozen — exactly
`(x, zeros[B])` for every mask — fails at masked-out positions; see the
counterexample.) -/
theorem zero_init_identity {B hc H T G : ℕ} (expf : ℚ → ℚ)
    (preWeight : Fin H → Fin hc → ℚ) (preBias : Fin H → ℚ)
    (enc : (Fin B → Fin H → Fin T → ℚ) → Mask B T → Option (Cond B G) →
      (Fin B → Fin H → Fin T → ℚ))
    (x : Tensor B (hc + hc) T) (mask : Mask B T) (g : Option (Cond B G))
    (hexp0 : expf 0 = 1) :
    (mkZeroPostLayer true preWeight preBias enc).postWeight =
      (fun _ _ => (0 : ℚ)) ∧
    (mkZeroPostLayer true preWeight preBias enc).postBias =
      (fun _ => (0 : ℚ)) ∧
    (∀ b c t,
      (mkZeroPostLayer true preWeight preBias enc).m (split0 x) mask g b c t
        = 0 ∧
      (mkZeroPostLayer true preWeight preBias enc).logs (split0 x) mask g b c t
        = 0) ∧
    ((mkZeroPostLayer true preWeight preBias enc).fwd expf x mask g).1 =
      cat (split0 x) (fun b c t => split1 x b c t * mask b t) ∧
    ((mkZeroPostLayer true preWeight preBias enc).fwd expf x mask g).2 =
      (fun _ => 0) ∧
    ((∀ b t, mask b t = 1) →
      ((mkZeroPostLayer true preWeight preBias enc).fwd expf x mask g).1 = x) := by
  have hm : ∀ b c t,
      (mkZeroPostLayer true preWeight preBias enc).m (split0 x) mask g b c t
        = 0 := by
    intro b c t
    simp [ResidualCouplingLayer.m, ResidualCouplingLayer.stats, mkZeroPostLayer]
  have hlogs : ∀ b c t,
      (mkZeroPostLayer true preWeight preBias enc).logs (split0 x) mask g b c t
        = 0 := by
    intro b c t
    simp [ResidualCouplingLayer.logs, mkZeroPostLayer]
  have hfst : ((mkZeroPostLayer true preWeight preBias enc).fwd expf x mask g).1
      = cat (split0 x) (fun b c t => split1 x b c t * mask b t) := by
    have hw : (fun b c t =>
        (mkZeroPostLayer true preWeight preBias enc).m (split0 x) mask g b c t +
          split1 x b c t *
            expf ((mkZeroPostLayer true preWeight preBias enc).logs
              (split0 x) mask g b c t) * mask b t) =
        (fun b c t => split1 x b c t * mask b t) := by
      funext b c t
      rw [hm b c t, hlogs b c t, hexp0, zero_add, mul_one]
    exact congrArg (cat (split0 x)) hw
  refine ⟨rfl, rfl, fun b c t => ⟨hm b c t, hlogs b c t⟩, hfst, ?_, ?_⟩
  · funext b
    show (∑ c, ∑ t,
      (mkZeroPostLayer true preWeight preBias enc).logs (split0 x) mask g b c t)
        = 0
    exact Finset.sum_eq_zero fun c _ => Finset.sum_eq_zero fun t _ => hlogs b c t
  · intro hall
    rw [hfst]
    have hw2 : (fun b c t => split1 x b c t * mask b t) = split1 x := by
      funext b c t
      rw [hall b t, mul_one]
    rw [hw2, cat_split]

/-- Witness for C3 with an all-ones mask: the forward pass returns
exactly the input and a zero logdet. -/
theorem zero_init_identity_witness :
    ((mkZeroPostLayer true (fun _ _ => 1) (fun _ => 0) (fun h _ _ => h) :
        ResidualCouplingLayer 1 1 1 1 0).fwd exExp exX exMaskOnes none).1 =
      cat (split0 exX) (fun b c t => split1 exX b c t * exMaskOnes b t) ∧
    ((mkZeroPostLayer true (fun _ _ => 1) (fun _ => 0) (fun h _ _ => h) :
        ResidualCouplingLayer 1 1 1 1 0).fwd exExp exX exMaskOnes none).2 =
      (fun _ => 0) ∧
    ((mkZeroPostLayer true (fun _ _ => 1) (fun _ => 0) (fun h _ _ => h) :
        ResidualCouplingLayer 1 1 1 1 0).fwd exExp exX exMaskOnes none).1 = exX :=
  have h := zero_init_identity exExp (fun _ _ => 1) (fun _ => 0)
    (fun h _ _ => h) exX exMaskOnes none (by simp [exExp])
  ⟨h.2.2.2.1, h.2.2.2.2.1, h.2.2.2.2.2 (fun _ _ => rfl)⟩

/-- Counterexample to C3 as frozen: with the all-zeros mask, the
zero-initialized `mean_only=True` layer maps the channel-1 entry `3` of
`exX` to `0`, so the forward pass does not return `x` exactly. -/
theorem zero_init_identity_cex :
    ((mkZeroPostLayer true (fun _ _ => 1) (fun _ => 0) (fun h _ _ => h) :
        ResidualCouplingLayer 1 1 1 1 0).fwd exExp exX exMaskZero none).1
      0 ⟨1, by omega⟩ 0 = 0 ∧
    exX 0 ⟨1, by omega⟩ 0 = 3 := by
  constructor
  · norm_num [ResidualCouplingLayer.fwd, ResidualCouplingLayer.m,
      ResidualCouplingLayer.logs, ResidualCouplingLayer.stats,
      ResidualCouplingLayer.preOut, mkZeroPostLayer, exExp, exMaskZero, exX,
      cat, split0, split1]
  · norm_num [exX]

/-- C6: at a time step where the mask is `0`, the coupling layer
produces `m = 0` and `logs = 0` for every channel (because `stats` is
multiplied by the mask before the split), and the returned `logdet`
equals the sum of `logs` restricted to the time steps where the mask is
nonzero — masked-out positions contribute exactly zero. -/
theorem coupling_mask_zero_logdet {B hc H T G : ℕ} (expf : ℚ → ℚ)
    (L : ResidualCouplingLayer B hc H T G) (x : Tensor B (hc + hc) T)
    (mask : Mask B T) (g : Option (Cond B G)) (b : Fin B) (t : Fin T)
    (h0 : mask b t = 0) :
    (∀ c : Fin hc,
      L.m (split0 x) mask g b c t = 0 ∧ L.logs (split0 x) mask g b c t = 0) ∧
    (L.fwd expf x mask g).2 b =
      ∑ c : Fin hc, ∑ tt ∈ Finset.univ.filter (fun tt => mask b tt ≠ 0),
        L.logs (split0 x) mask g b c tt := by
  constructor
  · exact fun c => ⟨L.m_mask_zero h0 c, L.logs_mask_zero h0 c⟩
  · show (∑ c, ∑ tt, L.logs (split0 x) mask g b c tt) = _
    refine Finset.sum_congr rfl fun c _ => ?_
    symm
    refine Finset.sum_filter_of_ne fun tt _ hne hmz => ?_
    exact hne (L.logs_mask_zero hmz c)

/-- Witness for C6 at a concrete layer, the all-zeros mask and time 0. -/
theorem coupling_mask_zero_logdet_witness :
    (∀ c : Fin 1,
      (mkMeanOnlyLayer (exParams 0)).m (split0 exX) exMaskZero none 0 c 0 = 0 ∧
      (mkMeanOnlyLayer (exParams 0)).logs (split0 exX) exMaskZero none 0 c 0
        = 0) ∧
    ((mkMeanOnlyLayer (exParams 0)).fwd exExp exX exMaskZero none).2 0 =
      ∑ c : Fin 1, ∑ tt ∈ Finset.univ.filter (fun tt => exMaskZero 0 tt ≠ 0),
        (mkMeanOnlyLayer (exParams 0)).logs (split0 exX) exMaskZero none
          0 c tt :=
  coupling_mask_zero_logdet exExp (mkMeanOnlyLayer (exParams 0)) exX
    exMaskZero none 0 0 rfl

/-- The error raised by the construction-time parity check (the spec
names it `InvalidConfiguration`; the source raises it from the `assert`
on line 111). -/
inductive ConfigError where
  | invalidConfiguration
deriving DecidableEq

/-- The configuration fields `ResidualCouplingLayer.__init__` stores
(lines 111-120). -/
structure RCLConfig where
  channels : ℕ
  hiddenChannels : ℕ
  kernelSize : ℕ
  dilationRate : ℕ
  nLayers : ℕ
  halfChannels : ℕ
  meanOnly : Bool
deriving DecidableEq

/-- Lines 111-120 of `ResidualCouplingLayer.__init__`: assert that
`channels` is even, then record the configuration with
`half_channels = channels // 2`. -/
def RCLConfig.init (channels hiddenChannels kernelSize dilationRate
    nLayers : ℕ) (meanOnly : Bool) : Except ConfigError RCLConfig :=
  if channels % 2 = 0 then
    .ok ⟨channels, hiddenChannels, kernelSize, dilationRate, nLayers,
      channels / 2, meanOnly⟩
  else
    .error .invalidConfiguration

/-- The layer-construction loop of `ResidualCouplingBlock.__init__`
(lines 54-67): one `mean_only=True` coupling layer per flow (each
followed by a parameterless `Flip`, which cannot fail), any failure
propagating. -/
def RCBConfig.init (channels hiddenChannels kernelSize dilationRate
    nLayers : ℕ) : (nFlows : ℕ) → Except ConfigError (List RCLConfig)
  | 0 => .ok []
  | n + 1 =>
    match RCLConfig.init channels hiddenChannels kernelSize dilationRate
      nLayers true with
    | .error e => .error e
    | .ok cfg =>
      match RCBConfig.init channels hiddenChannels kernelSize dilationRate
        nLayers n with
      | .error e => .error e
      | .ok rest => .ok (cfg :: rest)

theorem rcb_init_isOk (channels hiddenChannels kernelSize dilationRate
    nLayers : ℕ) :
    ∀ nFlows : ℕ,
      ((RCBConfig.init channels hiddenChannels kernelSize dilationRate nLayers
        nFlows).isOk = true ↔ channels % 2 = 0 ∨ nFlows = 0) := by
  intro nFlows
  induction nFlows with
  | zero => simp [RCBConfig.init, Except.isOk, Except.toBool]
  | succ n ih =>
    by_cases hch : channels % 2 = 0
    · cases hrest : RCBConfig.init channels hiddenChannels kernelSize
        dilationRate nLayers n with
      | error e =>
        exfalso
        rw [hrest] at ih
        simp [Except.isOk, Except.toBool] at ih
        omega
      | ok l =>
        simp [RCBConfig.init, RCLConfig.init, hch, hrest, Except.isOk,
          Except.toBool]
    · simp [RCBConfig.init, RCLConfig.init, hch, Except.isOk, Except.toBool]

/-- C8: constructing a coupling layer fails with `InvalidConfiguration`
exactly when `channels` is odd, and succeeds with
`half_channels = channels / 2` when `channels` is even; a block with at
least one flow therefore fails under exactly the same condition. -/
theorem construction_parity_check (channels hiddenChannels kernelSize
    dilationRate nLayers : ℕ) (meanOnly : Bool) (nFlows : ℕ) :
    ((RCLConfig.init channels hiddenChannels kernelSize dilationRate nLayers
        meanOnly).isOk = true ↔ channels % 2 = 0) ∧
    (channels % 2 = 0 →
      RCLConfig.init channels hiddenChannels kernelSize dilationRate nLayers
          meanOnly =
        .ok ⟨channels, hiddenChannels, kernelSize, dilationRate, nLayers,
          channels / 2, meanOnly⟩) ∧
    (¬ channels % 2 = 0 →
      RCLConfig.init channels hiddenChannels kernelSize dilationRate nLayers
          meanOnly = .error .invalidConfiguration) ∧
    (0 < nFlows →
      ((RCBConfig.init channels hiddenChannels kernelSize dilationRate nLayers
        nFlows).isOk = true ↔ channels % 2 = 0)) := by
  refine ⟨?_, ?_, ?_, ?_⟩
  · by_cases hch : channels % 2 = 0 <;>
      simp [RCLConfig.init, hch, Except.isOk, Except.toBool]
  · intro hch
    simp [RCLConfig.init, hch]
  · intro hch
    simp [RCLConfig.init, hch]
  · intro hpos
    rw [rcb_init_isOk]
    omega

/-- Witness for C8: `channels = 4` passes the parity check with
`half_channels = 2`, and `channels = 3` fails it. -/
theorem construction_parity_check_witness :
    RCLConfig.init 4 8 3 1 2 true = .ok ⟨4, 8, 3, 1, 2, 2, true⟩ ∧
    RCLConfig.init 3 8 3 1 2 true = .error .invalidConfiguration :=
  ⟨(construction_parity_check 4 8 3 1 2 true 1).2.1 (by norm_num),
   (construction_parity_check 3 8 3 1 2 true 1).2.2.1 (by norm_num)⟩

/-- C10: at a masked-out time step the transformed half of the coupling
layer's output is exactly `0` in both directions, whatever the input
holds there; the pass-through half is returned verbatim in both
directions; and the forward-then-reverse round trip restores the
transformed half exactly at time steps where the mask is `1` while
leaving `0` there where the mask is `0`. -/
theorem coupling_masked_positions {B hc H T G : ℕ} (expf : ℚ → ℚ)
    (L : ResidualCouplingLayer B hc H T G) (x : Tensor B (hc + hc) T)
    (mask : Mask B T) (g : Option (Cond B G))
    (hexp : ∀ a, expf a * expf (-a) = 1) (b : Fin B) (c : Fin (hc + hc))
    (t : Fin T) :
    (mask b t = 0 → hc ≤ c.val →
      (L.fwd expf x mask g).1 b c t = 0 ∧ L.rev expf x mask g b c t = 0) ∧
    (c.val < hc →
      (L.fwd expf x mask g).1 b c t = x b c t ∧
      L.rev expf x mask g b c t = x b c t) ∧
    (mask b t = 1 →
      L.rev expf (L.fwd expf x mask g).1 mask g b c t = x b c t) ∧
    (mask b t = 0 → hc ≤ c.val →
      L.rev expf (L.fwd expf x mask g).1 mask g b c t = 0) := by
  refine ⟨?_, ?_, ?_, ?_⟩
  · intro h0 hge
    have hlt : ¬ c.val < hc := by omega
    constructor
    · simp only [ResidualCouplingLayer.fwd, cat, hlt, dite_false]
      rw [h0, L.m_mask_zero h0]
      ring
    · simp only [ResidualCouplingLayer.rev, cat, hlt, dite_false]
      rw [h0, mul_zero]
  · intro hlt
    constructor
    · simp only [ResidualCouplingLayer.fwd, cat, hlt, dite_true, split0,
        Fin.eta]
    · simp only [ResidualCouplingLayer.rev, cat, hlt, dite_true, split0,
        Fin.eta]
  · intro h1
    exact L.layerRevFwd_eqOnValid expf x mask g hexp b c t h1
  · intro h0 hge
    have hlt : ¬ c.val < hc := by omega
    rw [L.rev_fwd expf x mask g hexp]
    simp only [cat, hlt, dite_false]
    rw [h0, mul_zero, mul_zero]

/-- Witness for C10 at a concrete layer, the all-zeros mask, batch 0,
channel 1 (the transformed half) and time 0. -/
theorem coupling_masked_positions_witness :
    (exMaskZero 0 0 = 0 → 1 ≤ (⟨1, by omega⟩ : Fin (1 + 1)).val →
      ((mkMeanOnlyLayer (exParams 0)).fwd exExp exX exMaskZero none).1
          0 ⟨1, by omega⟩ 0 = 0 ∧
        (mkMeanOnlyLayer (exParams 0)).rev exExp exX exMaskZero none
          0 ⟨1, by omega⟩ 0 = 0) ∧
    ((⟨1, by omega⟩ : Fin (1 + 1)).val < 1 →
      ((mkMeanOnlyLayer (exParams 0)).fwd exExp exX exMaskZero none).1
          0 ⟨1, by omega⟩ 0 = exX 0 ⟨1, by omega⟩ 0 ∧
        (mkMeanOnlyLayer (exParams 0)).rev exExp exX exMaskZero none
          0 ⟨1, by omega⟩ 0 = exX 0 ⟨1, by omega⟩ 0) ∧
    (exMaskZero 0 0 = 1 →
      (mkMeanOnlyLayer (exParams 0)).rev exExp
        ((mkMeanOnlyLayer (exParams 0)).fwd exExp exX exMaskZero none).1
        exMaskZero none 0 ⟨1, by omega⟩ 0 = exX 0 ⟨1, by omega⟩ 0) ∧
    (exMaskZero 0 0 = 0 → 1 ≤ (⟨1, by omega⟩ : Fin (1 + 1)).val →
      (mkMeanOnlyLayer (exParams 0)).rev exExp
        ((mkMeanOnlyLayer (exParams 0)).fwd exExp exX exMaskZero none).1
        exMaskZero none 0 ⟨1, by omega⟩ 0 = 0) :=
  coupling_masked_positions exExp (mkMeanOnlyLayer (exParams 0)) exX
    exMaskZero none (fun a => by simp [exExp]) 0 ⟨1, by omega⟩ 0

end VariTTS
